import Mathlib

/-!
# Verification of the claud9 session-orchestration core

Shallow embedding, in Lean, of the parts of the claud9 repository that the
specification's testable properties talk about:

* `src/utils/chunker.ts` — `chunkMessage`, the output streaming pipeline's
  chunking routine (modelled here on `List Char`, with explicit fuel because
  the source loop is not structurally decreasing);
* `src/core/session-manager.ts` — `createSession` / `resumeSession`
  (state-passing model; asynchronous bridge calls become an emitted effect
  list);
* `src/core/session.ts` — `handlePermission`, `sendMessage` /
  `waitForMessage` / `abort` and the multi-turn loop (a small-step state
  machine over the loop's suspension points), and the capture of the SDK
  session id from `init` records.

JavaScript strings are modelled as `List Char`; JavaScript numbers used as
indices are `Nat` with `-1` results modelled as `Option.none`.  The single
floating-point comparison in the source, `i > maxLength * 0.3` (with `i` an
integer index), is modelled as the exact rational comparison
`10 * i > 3 * maxLength`: for every `Nat` `maxLength` in range the JS double
`maxLength * 0.3` differs from the rational `3 * maxLength / 10` by less than
`10⁻¹⁰`, and an integer `i` compares identically against both unless
`3 * maxLength / 10` is itself an integer, in which case the JS product
rounds to exactly that integer (e.g. `1900 * 0.3 = 570`, `10 * 0.3 = 3`),
so the two comparisons agree for every integer `i`.
-/

namespace Claud9

/-- Text is a JavaScript string, modelled as its list of characters. -/
abbrev Text := List Char

/-- JS regex `\w` word-character class, `[A-Za-z0-9_]`, used by the chunker's
language-tag match `/^(\w+)/`. -/
def isWordChar (c : Char) : Bool :=
  ('a' ≤ c && c ≤ 'z') || ('A' ≤ c && c ≤ 'Z') || ('0' ≤ c && c ≤ '9') || c == '_'

/-- Characters removed by JS `String.prototype.trim` (ECMAScript *WhiteSpace*
and *LineTerminator* code points). -/
def isJsSpace (c : Char) : Bool :=
  c == ' ' || c == '\t' || c == '\n' || c == '\r' || c == '\x0b' || c == '\x0c' ||
  c == '\u00a0' || c == '\u1680' ||
  ('\u2000' ≤ c && c ≤ '\u200a') ||
  c == '\u2028' || c == '\u2029' || c == '\u202f' || c == '\u205f' ||
  c == '\u3000' || c == '\ufeff'

/-- The `chunk.trim().length > 0`: the chunk has at least one non-whitespace
character.  This is the predicate of the final `filter` in `chunkMessage`. -/
def trimNonempty (c : Text) : Bool :=
  c.any (fun ch => !isJsSpace ch)

/-- Downward scan underlying `lastIndexOfFrom`: the greatest start index
`< n` at which `pat` occurs in `s`. -/
def lastIdxGo (pat s : Text) : Nat → Option Nat
  | 0 => none
  | i + 1 => if pat.isPrefixOf (s.drop i) then some i else lastIdxGo pat s i

/-- JS `s.lastIndexOf(pat, pos)`: the greatest start index `i ≤ pos` at which
`pat` occurs in `s` (the occurrence may extend beyond `pos`); `none` models
the JS result `-1`. -/
def lastIndexOfFrom (pat s : Text) (pos : Nat) : Option Nat :=
  lastIdxGo pat s (pos + 1)

/-- Upward scan underlying `indexOfFrom`, with an explicit remaining-step
count. -/
def idxGo (pat s : Text) : Nat → Nat → Option Nat
  | _, 0 => none
  | i, k + 1 => if pat.isPrefixOf (s.drop i) then some i else idxGo pat s (i + 1) k

/-- JS `s.indexOf(pat, start)`: the least start index `i ≥ start` at which
`pat` occurs in `s`; `none` models the JS result `-1`.  Start indices up to
`s.length` are considered (a nonempty pattern never matches at or beyond
`s.length`). -/
def indexOfFrom (pat s : Text) (start : Nat) : Option Nat :=
  idxGo pat s start (s.length + 1 - start)

/-- The string `"```"`. -/
def threeTicks : Text := ['\x60', '\x60', '\x60']

/-- The string `"\n```"`, both the search pattern for a code-block boundary
and the closing marker the chunker appends. -/
def closeMarker : Text := '\n' :: threeTicks

/-- The reopening marker `"```" + lang + "\n"` prepended to the remaining
text after splitting inside an open code block. -/
def reopenMarker (lang : Text) : Text := threeTicks ++ lang ++ ['\n']

/-- Number of non-overlapping occurrences of ```` ``` ```` in a chunk:
JS `(chunk.match(/```/g) || []).length`. -/
def countTicks : Text → Nat
  | '\x60' :: '\x60' :: '\x60' :: rest => countTicks rest + 1
  | _ :: rest => countTicks rest
  | [] => 0

/-- Language tag of the last opened code block of a chunk:
`lastOpen = chunk.lastIndexOf("```")`, then the leading `\w+` of
`chunk.slice(lastOpen + 3)` (empty when the regex does not match).  On the
call path the chunk always contains ```` ``` ````, so the `none` case is
unreachable. -/
def extractLang (chunk : Text) : Text :=
  match lastIndexOfFrom threeTicks chunk chunk.length with
  | some lastOpen => (chunk.drop (lastOpen + 3)).takeWhile isWordChar
  | none => []

/-- The JS guard `i > maxLength * 0.3` applied to a found index (`none`
models `-1`, for which the guard is false). -/
def overThreshold (found : Option Nat) (maxLength : Nat) : Option Nat :=
  match found with
  | some i => if 10 * i > 3 * maxLength then some i else none
  | none => none

/-- Split-point computation of one `chunkMessage` loop iteration
(`splitIndex` starts at `maxLength`; code-block boundary, then newline, then
space, then hard cut). -/
def computeSplitIndex (remaining : Text) (maxLength : Nat) : Nat :=
  match overThreshold (lastIndexOfFrom closeMarker remaining maxLength) maxLength with
  | some codeBlockEnd =>
    -- check if there's a closing ``` — split after it
    match indexOfFrom ['\n'] remaining (codeBlockEnd + 4) with
    | some afterBlock => if afterBlock ≤ maxLength then afterBlock + 1 else codeBlockEnd
    | none => codeBlockEnd
  | none =>
    match overThreshold (lastIndexOfFrom ['\n'] remaining maxLength) maxLength with
    | some lastNewline => lastNewline + 1
    | none =>
      match overThreshold (lastIndexOfFrom [' '] remaining maxLength) maxLength with
      | some lastSpace => lastSpace + 1
      | none => maxLength

/-- The `while (remaining.length > 0)` loop of `chunkMessage`, with fuel.
The source loop does not always terminate (the reopening marker prepended to
`remaining` can be at least as long as the slice just removed), so the model
returns `none` when the fuel runs out. -/
def chunkLoop (maxLength : Nat) : Nat → Text → Option (List Text)
  | 0, _ => none
  | fuel + 1, remaining =>
    if remaining.length = 0 then some []
    else if remaining.length ≤ maxLength then some [remaining]
    else
      let si := computeSplitIndex remaining maxLength
      let chunk := remaining.take si
      let rest := remaining.drop si
      if countTicks chunk % 2 = 1 then
        -- close the block in the current chunk, re-open it in the next chunk
        let lang := extractLang chunk
        (chunkLoop maxLength fuel (reopenMarker lang ++ rest)).map
          (fun cs => (chunk ++ closeMarker) :: cs)
      else
        (chunkLoop maxLength fuel rest).map (fun cs => chunk :: cs)

/-- The `chunkMessage(text, maxLength = 1900)` from `src/utils/chunker.ts`.
A text that already fits is returned as the single chunk, unfiltered;
otherwise the loop runs and empty/whitespace-only chunks are dropped. -/
def chunkMessage (fuel : Nat) (text : Text) (maxLength : Nat) : Option (List Text) :=
  if text.length ≤ maxLength then some [text]
  else (chunkLoop maxLength fuel text).map (List.filter trimNonempty)

/-! ### Provenance-tracking refinement of the chunk loop

`instrLoop` is `chunkLoop` with each produced chunk split into the part that
the pipeline inserted in front (`pre`: the not-yet-emitted tail of a
reopening marker), the slice of the original input (`orig`), and the closing
marker appended behind (`post`).  The loop state `remaining` is carried as
the pair `(ins, orig)` with `remaining = ins ++ orig`, where `ins` is
inserted marker text still waiting at the head.  `instrLoop_erase` below
proves that assembling `pre ++ orig ++ post` recovers `chunkLoop` exactly,
so `instrLoop` adds bookkeeping only. -/

/-- One chunk of output, split into inserted reopening-marker text (`pre`),
original input text (`orig`), and the inserted closing marker (`post`). -/
structure ChunkPart where
  pre : Text
  orig : Text
  post : Text
deriving DecidableEq, Repr

/-- The chunk as actually emitted. -/
def ChunkPart.assemble (p : ChunkPart) : Text := p.pre ++ p.orig ++ p.post

/-- The `chunkLoop` with provenance: the loop state `remaining = ins ++ orig`. -/
def instrLoop (maxLength : Nat) : Nat → Text → Text → Option (List ChunkPart)
  | 0, _, _ => none
  | fuel + 1, ins, orig =>
    if (ins ++ orig).length = 0 then some []
    else if (ins ++ orig).length ≤ maxLength then some [⟨ins, orig, []⟩]
    else
      let si := computeSplitIndex (ins ++ orig) maxLength
      let chunk := (ins ++ orig).take si
      if countTicks chunk % 2 = 1 then
        let lang := extractLang chunk
        (instrLoop maxLength fuel (reopenMarker lang ++ ins.drop si)
            (orig.drop (si - ins.length))).map
          (fun ps => ⟨ins.take si, orig.take (si - ins.length), closeMarker⟩ :: ps)
      else
        (instrLoop maxLength fuel (ins.drop si) (orig.drop (si - ins.length))).map
          (fun ps => ⟨ins.take si, orig.take (si - ins.length), []⟩ :: ps)

/-- The `chunkMessage` with provenance (no final whitespace filter; the filter is
related to this in `chunkMessage_roundtrip_amended`). -/
def chunkParts (fuel : Nat) (text : Text) (maxLength : Nat) : Option (List ChunkPart) :=
  if text.length ≤ maxLength then some [⟨[], text, []⟩]
  else instrLoop maxLength fuel [] text

/-! ## Data model (`src/bridge/types.ts`) -/

/-- The `SessionStatus = "working" | "waiting" | "idle" | "error"`. -/
inductive SessionStatus
  | working
  | waiting
  | idle
  | error
deriving DecidableEq, Repr

/-- The `VerbosityLevel = "minimal" | "normal" | "verbose"`. -/
inductive VerbosityLevel
  | minimal
  | normal
  | verbose
deriving DecidableEq, Repr

/-- The `SessionPreset` (`src/bridge/types.ts`).  Optional TS fields are
`Option`. -/
structure SessionPreset where
  path : String
  allowedTools : Option (List String)
  permissionMode : Option String
  skipPermissions : Option Bool
  model : Option String
deriving DecidableEq, Repr

/-- The `ConductorConfig` (`src/bridge/types.ts`).  The JS `Record<string, _>`
maps become association lists. -/
structure ConductorConfig where
  categoryName : String
  maxConcurrentSessions : Nat
  messageChunkSize : Nat
  streamDebounceMs : Nat
  verbosity : VerbosityLevel
  autoApproveReadOnly : Bool
  notifyOnCompletion : Bool
  notifyOnPermission : Bool
  archiveEndedSessions : Bool
  presets : List (String × SessionPreset)
  projects : List (String × String)
deriving DecidableEq, Repr

/-- The `SessionInfo`, the persisted registry entry (`src/bridge/types.ts`).
`channelId` is `Option` because `MessagingBridge.createSessionChannel`
returns `Promise<void>`, so the value the manager stores is `undefined`. -/
structure SessionInfo where
  id : String
  name : String
  projectPath : String
  channelId : Option String
  status : SessionStatus
  sdkSessionId : Option String
  createdAt : String
  lastActivity : String
  allowedTools : List String
  autoApprovedTools : List String
  model : Option String
deriving DecidableEq, Repr

/-! ## Session Manager (`src/core/session-manager.ts`)

State-passing model of `SessionManager.createSession` and
`SessionManager.resumeSession`.  Asynchronous messaging-bridge calls become
entries of an emitted `BridgeEffect` list (in call order); the JS `throw`
becomes `Except.error`; `new Date().toISOString()` becomes the explicit
clock argument `now`; `session.start(initialPrompt)` (which runs in the
background) becomes the `startSession` effect. -/

/-- The constructor arguments recorded for a live `Session` object
(`SessionOptions` fields that the manager sets, minus the bridge/config
references). -/
structure LiveSession where
  id : String
  name : String
  projectPath : String
  model : Option String
  allowedTools : Option (List String)
  resumeSessionId : Option String
  skipPermissions : Bool
deriving DecidableEq, Repr

/-- In-memory state of a `SessionManager`: the `sessions` map (live
`Session` objects keyed by id) and the persisted `SessionStore` contents
(a map keyed by `info.id`).  JS `Map`s become insertion-ordered association
lists. -/
structure ManagerState where
  sessions : List (String × LiveSession)
  store : List (String × SessionInfo)
deriving DecidableEq, Repr

/-- Observable calls the manager makes while creating/resuming a session. -/
inductive BridgeEffect
  | createSessionChannel (sessionId name : String)
  | sendStatus (sessionId : String) (status : SessionStatus) (detail : String)
  | startSession (sessionId initialPrompt : String)
deriving DecidableEq, Repr

/-- The `Map.prototype.set`: replace the value under an existing key, else
append (insertion order preserved). -/
def assocSet {α : Type} (l : List (String × α)) (k : String) (v : α) : List (String × α) :=
  if l.any (fun p => p.1 == k) then
    l.map (fun p => if p.1 == k then (k, v) else p)
  else
    l ++ [(k, v)]

/-- The `options` object of `createSession`. -/
structure CreateOptions where
  model : Option String
  allowedTools : Option (List String)
  preset : Option String
  skipPermissions : Option Bool
deriving DecidableEq, Repr

/-- The capacity-error message thrown by `createSession`. -/
def capacityMessage (max : Nat) : String :=
  "Maximum concurrent sessions (" ++ toString max ++ ") reached. End a session first."

/-- The `SessionManager.createSession(name, projectPath, initialPrompt, options)`.
Returns the new manager state, the bridge calls made (in order), and the
returned session id — or the thrown error. -/
def createSession (st : ManagerState) (cfg : ConductorConfig)
    (name projectPath initialPrompt : String) (options : CreateOptions)
    (now : String) : Except String (ManagerState × List BridgeEffect × String) :=
  -- check concurrent session limit
  if cfg.maxConcurrentSessions ≤ st.sessions.length then
    .error (capacityMessage cfg.maxConcurrentSessions)
  else
    -- apply preset if specified
    let preset : Option SessionPreset :=
      match options.preset with
      | some pn => cfg.presets.lookup pn
      | none => none
    let projectPath :=
      match preset with
      | some p => if projectPath = "" ∧ p.path ≠ "" then p.path else projectPath
      | none => projectPath
    let id := name  -- use the name as the session ID
    let model := options.model <|> preset.bind (·.model)
    let allowedTools := options.allowedTools <|> preset.bind (·.allowedTools)
    let skipPermissions := (options.skipPermissions <|> preset.bind (·.skipPermissions)).getD false
    let info : SessionInfo :=
      { id := id, name := name, projectPath := projectPath, channelId := none,
        status := .working, sdkSessionId := none, createdAt := now,
        lastActivity := now, allowedTools := allowedTools.getD [],
        autoApprovedTools := [], model := model }
    let live : LiveSession :=
      { id := id, name := name, projectPath := projectPath, model := model,
        allowedTools := allowedTools, resumeSessionId := none,
        skipPermissions := skipPermissions }
    .ok ({ sessions := assocSet st.sessions id live,
           store := assocSet st.store id info },
         [.createSessionChannel id name,
          .sendStatus id .working ("Starting session in `" ++ projectPath ++ "`"),
          .startSession id initialPrompt],
         id)

/-- The `SessionManager.resumeSession(name, sdkSessionId, projectPath,
initialPrompt)`.  Note: unlike `createSession`, the source performs no
concurrent-session-limit check and can never throw, so the `Except` is
always `.ok`. -/
def resumeSession (st : ManagerState) (cfg : ConductorConfig)
    (name sdkSessionId projectPath initialPrompt : String)
    (now : String) : Except String (ManagerState × List BridgeEffect × String) :=
  let id := name
  let info : SessionInfo :=
    { id := id, name := name, projectPath := projectPath, channelId := none,
      status := .working, sdkSessionId := some sdkSessionId, createdAt := now,
      lastActivity := now, allowedTools := [], autoApprovedTools := [],
      model := none }
  let live : LiveSession :=
    { id := id, name := name, projectPath := projectPath, model := none,
      allowedTools := none, resumeSessionId := some sdkSessionId,
      skipPermissions := false }
  .ok ({ sessions := assocSet st.sessions id live,
         store := assocSet st.store id info },
       [.createSessionChannel id name,
        .sendStatus id .working ("Resuming session " ++ sdkSessionId),
        .startSession id initialPrompt],
       id)

/-! ## Permission Gate (`Session.handlePermission`, `src/core/session.ts`) -/

/-- The `PermissionResult` of the agent SDK: `allow` carries `updatedInput`,
`deny` carries a message.  The tool-input payload type is abstract. -/
inductive PermissionResult (α : Type)
  | allow (updatedInput : α)
  | deny (message : String)
deriving DecidableEq, Repr

/-- Decision kind of a `PermissionResponse` from the bridge. -/
inductive Behavior
  | allow
  | deny
deriving DecidableEq, Repr

/-- The `PermissionResponse` (`src/bridge/types.ts`). -/
structure PermissionResponse where
  behavior : Behavior
  message : Option String
  allowAllForTool : Option Bool
deriving DecidableEq, Repr

/-- The per-session state `handlePermission` reads and writes: the session
status and the sticky-approved tool set (a JS `Set`, modelled as a
duplicate-free insertion-ordered list). -/
structure PermState where
  status : SessionStatus
  autoApprovedTools : List String
deriving DecidableEq, Repr

/-- Observable actions of `handlePermission`: `setStatus` fires the
`onStatusChange` observer, plus the two bridge calls. -/
inductive GateEffect
  | statusChanged (sessionId : String) (status : SessionStatus)
  | updateSessionStatus (sessionId : String) (status : SessionStatus)
  | sendPermissionRequest (sessionId requestId toolName : String)
deriving DecidableEq, Repr

/-- The fixed read-only tool set of `handlePermission`. -/
def readOnlyTools : List String := ["Read", "Glob", "Grep", "WebSearch", "WebFetch"]

/-- The `Session.handlePermission(toolName, toolInput)`.  The human decision the
bridge would eventually deliver is the `response` argument (consulted only
on the slow path); the generated request id (`Date.now()` + random suffix)
is the `reqId` argument.  Returns the decision, the updated session state,
and the effects in program order. -/
def handlePermission {α : Type} (sid : String) (s : PermState) (cfg : ConductorConfig)
    (toolName : String) (toolInput : α) (reqId : String)
    (response : PermissionResponse) :
    PermissionResult α × PermState × List GateEffect :=
  -- check auto-approved tools
  if toolName ∈ s.autoApprovedTools then
    (.allow toolInput, s, [])
  -- check read-only auto-approve
  else if cfg.autoApproveReadOnly ∧ toolName ∈ readOnlyTools then
    (.allow toolInput, s, [])
  else
    -- ask user via the bridge; status waiting while suspended
    let newTools :=
      if response.allowAllForTool.getD false ∧ toolName ∉ s.autoApprovedTools then
        s.autoApprovedTools ++ [toolName]
      else s.autoApprovedTools
    let s' : PermState := { status := .working, autoApprovedTools := newTools }
    let effs : List GateEffect :=
      [.statusChanged sid .waiting, .updateSessionStatus sid .waiting,
       .sendPermissionRequest sid reqId toolName,
       .statusChanged sid .working, .updateSessionStatus sid .working]
    match response.behavior with
    | .allow => (.allow toolInput, s', effs)
    | .deny => (.deny (response.message.getD "User denied this action"), s', effs)

/-! ## SDK session-id capture (`Session.runSingleTurn`, `src/core/session.ts`)

The agent event stream is a closed variant type.  The only statement in
`session.ts` that writes `this.sdkSessionId` is the `init` case of the
stream loop (`this.sdkSessionId = message.session_id`), executed for every
`system`/`init` record of every turn; no other event kind touches the
field.  `updateSdkSessionId` is that assignment as a transition on the
field's value. -/

/-- Agent event records, by the `type`/`subtype` tags the stream loop
dispatches on.  Only the `init` record carries data the `sdkSessionId`
capture reads. -/
inductive AgentEvent
  | systemInit (sessionId : String)
  | systemCompactBoundary
  | streamEvent
  | userRecord
  | assistantRecord
  | resultRecord
deriving DecidableEq, Repr

/-- Effect of one agent event on the stored `sdkSessionId`. -/
def updateSdkSessionId (cur : Option String) (e : AgentEvent) : Option String :=
  match e with
  | .systemInit sid => some sid
  | _ => cur

/-- Last element of a list (recursive helper for stating the
`sdkSessionId` fold law). -/
def lastOf {α : Type} : List α → Option α
  | [] => none
  | [x] => some x
  | _ :: x :: xs => lastOf (x :: xs)

/-- The session id of the last initialization record of an event list. -/
def lastInitId (evs : List AgentEvent) : Option String :=
  lastOf (evs.filterMap (fun e =>
    match e with
    | .systemInit sid => some sid
    | _ => none))

/-! ## Multi-turn loop state machine (`src/core/session.ts`)

Small-step model of `Session.runConversation` / `sendMessage` /
`waitForMessage` / `abort`.  The `await` points of the loop are the machine
steps; the promise resolver `messageResolver` becomes the flag
`resolverSet`, and resolving it is the `resolved` event.  Steps:

* `stepBeginTurn` — top of the `while (true)` loop: `setStatus("working")`
  and the turn (`runSingleTurn`) begins;
* `stepTurnEnd` — `runSingleTurn` returned: break if aborted, else
  `setStatus("idle")`, optional completion notification,
  `setStatus("waiting")`, then `waitForMessage()` either dequeues the
  queue's head immediately or installs the resolver and suspends;
* `stepSend` — `sendMessage(text)`: resolve a pending wait (the resumed
  loop checks the abort signal, then starts the next turn with `text`) or
  push onto `messageQueue`;
* `stepAbort` — `abort()`: set the abort signal, `setStatus("idle")`,
  resolve any pending wait with `""` (the resumed loop sees the abort
  signal and breaks). -/

/-- Position of the multi-turn loop between suspension points. -/
inductive Phase
  | startingTurn (prompt : String)
  | inTurn (prompt : String)
  | waitingForMessage
  | done
deriving DecidableEq, Repr

/-- State of one `Session`'s multi-turn loop. -/
structure LoopState where
  status : SessionStatus
  queue : List String
  resolverSet : Bool
  phase : Phase
  aborted : Bool
deriving DecidableEq, Repr

/-- Observable events of the loop machine: `setStatus` observer calls,
resolutions of the message wait, completion notifications. -/
inductive LoopEvent
  | statusSet (status : SessionStatus)
  | resolved (text : String)
  | notified
deriving DecidableEq, Repr

/-- The `start(initialPrompt)`: fresh abort controller, `setStatus("working")`,
enter the loop. -/
def initialLoopState (prompt : String) : LoopState :=
  { status := .working, queue := [], resolverSet := false,
    phase := .startingTurn prompt, aborted := false }

/-- Loop top (lines 153–156 of `session.ts`): status `working`, turn runs. -/
def stepBeginTurn (s : LoopState) (p : String) : LoopState × List LoopEvent :=
  ({ s with status := .working, phase := .inTurn p }, [.statusSet .working])

/-- The `runSingleTurn` returned (lines 157–179). -/
def stepTurnEnd (cfg : ConductorConfig) (s : LoopState) : LoopState × List LoopEvent :=
  if s.aborted then
    ({ s with phase := .done }, [])
  else
    let evs := [LoopEvent.statusSet .idle]
      ++ (if cfg.notifyOnCompletion then [LoopEvent.notified] else [])
      ++ [LoopEvent.statusSet .waiting]
    match s.queue with
    | m :: rest =>
      ({ s with status := .waiting, queue := rest, phase := .startingTurn m }, evs)
    | [] =>
      ({ s with status := .waiting, resolverSet := true, phase := .waitingForMessage }, evs)

/-- The `sendMessage(text)` (lines 98–106): resolve a pending wait, else queue. -/
def stepSend (s : LoopState) (text : String) : LoopState × List LoopEvent :=
  if s.resolverSet then
    ({ s with resolverSet := false,
              phase := if s.aborted then .done else .startingTurn text },
     [.resolved text])
  else
    ({ s with queue := s.queue ++ [text] }, [])

/-- The `abort()` (lines 517–525). -/
def stepAbort (s : LoopState) : LoopState × List LoopEvent :=
  if s.resolverSet then
    ({ s with aborted := true, status := .idle, resolverSet := false, phase := .done },
     [.statusSet .idle, .resolved ""])
  else
    ({ s with aborted := true, status := .idle }, [.statusSet .idle])

/-- States of the loop machine reachable from `start(prompt)` under any
interleaving of turn completions, operator messages, and aborts. -/
inductive Reachable : LoopState → Prop
  | init (prompt : String) : Reachable (initialLoopState prompt)
  | beginTurn {s : LoopState} {p : String} :
      Reachable s → s.phase = .startingTurn p → Reachable (stepBeginTurn s p).1
  | turnEnd {s : LoopState} {p : String} (cfg : ConductorConfig) :
      Reachable s → s.phase = .inTurn p → Reachable (stepTurnEnd cfg s).1
  | send {s : LoopState} (text : String) :
      Reachable s → Reachable (stepSend s text).1
  | abort {s : LoopState} :
      Reachable s → Reachable (stepAbort s).1

/-- Invariant of the loop machine: a pending message resolver exists only
while suspended at the operator-message wait, with an empty queue, status
`waiting`, and no abort yet. -/
def LoopInv (s : LoopState) : Prop :=
  s.resolverSet = true →
    s.phase = .waitingForMessage ∧ s.queue = [] ∧ s.status = .waiting ∧ s.aborted = false

/-- The language tag `"js"` of the spec's scenario. -/
def jsTag : Text := ['j', 's']

/-! ## Concrete fixtures for witnesses and counterexamples -/

/-- A configuration with `maxConcurrentSessions = 1` (all other fields at
the documented defaults). -/
def cfgOne : ConductorConfig :=
  { categoryName := "Claude Sessions", maxConcurrentSessions := 1,
    messageChunkSize := 1900, streamDebounceMs := 2000, verbosity := .normal,
    autoApproveReadOnly := false, notifyOnCompletion := false,
    notifyOnPermission := true, archiveEndedSessions := true,
    presets := [], projects := [] }

/-- The `cfgOne` with the auto-approve-read-only policy enabled. -/
def cfgReadOnly : ConductorConfig := { cfgOne with autoApproveReadOnly := true }

/-- A live session under id `"a"`. -/
def liveA : LiveSession :=
  { id := "a", name := "a", projectPath := "/proj/a", model := none,
    allowedTools := none, resumeSessionId := none, skipPermissions := false }

/-- A manager whose live-session count is at `cfgOne`'s maximum. -/
def stFull : ManagerState := { sessions := [("a", liveA)], store := [] }

/-- Empty `createSession` options. -/
def optsNone : CreateOptions :=
  { model := none, allowedTools := none, preset := none, skipPermissions := none }

/-- A mid-turn loop state with two queued operator messages (reachable:
start, begin the turn, then two `sendMessage` calls arrive while working). -/
def loopWorking : LoopState :=
  { status := .working, queue := ["first", "second"], resolverSet := false,
    phase := .inTurn "p0", aborted := false }

/-- The loop state suspended at the operator-message wait (reachable: start,
begin the turn, turn ends with an empty queue). -/
def loopWaiting : LoopState :=
  { status := .waiting, queue := [], resolverSet := true,
    phase := .waitingForMessage, aborted := false }

/-- The provenance-tracked chunks of
`chunkMessage("```js\nx\n```\nmore over ten", 10)`: the first split lands
inside the open ```` ```js ```` block. -/
def jsParts : List ChunkPart :=
  [⟨[], "```js\nx".toList, closeMarker⟩,
   ⟨"```js\n".toList, "\n```\n".toList, []⟩,
   ⟨[], "more over ".toList, []⟩,
   ⟨[], "ten".toList, []⟩]

end Claud9

namespace Claud9

/-! # Theorems

One theorem per claim of the specification review, each preceded by the
claim id, together with the supporting lemmas, witnesses and
counterexamples. -/

/-! ## Session Manager: capacity (C3, C4) -/

/-- The pair just set is in the map. -/
theorem mem_assocSet {α : Type} (l : List (String × α)) (k : String) (v : α) :
    (k, v) ∈ assocSet l k v := by
  unfold assocSet
  by_cases h : l.any (fun p => p.1 == k)
  · rw [if_pos h]
    obtain ⟨p, hp, hpk⟩ := List.any_eq_true.1 h
    exact List.mem_map.2 ⟨p, hp, by rw [if_pos hpk]⟩
  · rw [if_neg h]
    exact List.mem_append_right _ (List.mem_singleton.2 rfl)

/-- Claim **C3** (confirmed).  When the number of live sessions equals the
configured maximum, `createSession` throws the capacity error; since the
throw precedes every other statement, no channel is created, no registry
entry is persisted, and no `Session` is constructed or started (the
`Except.error` result carries no new state, no bridge effect, and no id). -/
theorem createSession_capacity (st : ManagerState) (cfg : ConductorConfig)
    (name projectPath initialPrompt : String) (options : CreateOptions) (now : String)
    (h : st.sessions.length = cfg.maxConcurrentSessions) :
    createSession st cfg name projectPath initialPrompt options now =
      .error (capacityMessage cfg.maxConcurrentSessions) := by
  unfold createSession
  rw [if_pos (le_of_eq h.symm)]

/-- Witness for C3: a concrete manager at its maximum of one live session. -/
theorem createSession_capacity_witness :
    stFull.sessions.length = cfgOne.maxConcurrentSessions ∧
    createSession stFull cfgOne "b" "/proj/b" "go" optsNone "t0" =
      .error (capacityMessage 1) :=
  ⟨rfl, createSession_capacity stFull cfgOne "b" "/proj/b" "go" optsNone "t0" rfl⟩

/-- Claim **C4** (counterexample).  With the live-session count at the configured
maximum, `resumeSession` does *not* reject with a capacity error: it
succeeds, creates a channel, persists a registry entry and starts the
session — the source method has no capacity check. -/
theorem resumeSession_capacity_cex :
    stFull.sessions.length = cfgOne.maxConcurrentSessions ∧
    resumeSession stFull cfgOne "b" "sdk-42" "/proj/b" "go" "t0" =
      .ok ({ sessions := [("a", liveA),
                          ("b", { id := "b", name := "b", projectPath := "/proj/b",
                                  model := none, allowedTools := none,
                                  resumeSessionId := some "sdk-42",
                                  skipPermissions := false })],
             store := [("b", { id := "b", name := "b", projectPath := "/proj/b",
                               channelId := none, status := .working,
                               sdkSessionId := some "sdk-42", createdAt := "t0",
                               lastActivity := "t0", allowedTools := [],
                               autoApprovedTools := [], model := none })] },
           [.createSessionChannel "b" "b",
            .sendStatus "b" .working "Resuming session sdk-42",
            .startSession "b" "go"],
           "b") := by
  constructor
  · rfl
  · rfl

/-- Claim **C4** (amended).  `resumeSession` seeds the new session with the given
remote-conversation handle, but — unlike `createSession` — performs no
capacity check: even when the live-session count is at the configured
maximum it creates the channel, persists a registry entry carrying the
handle, and starts a session seeded with the handle. -/
theorem resumeSession_no_capacity_check (st : ManagerState) (cfg : ConductorConfig)
    (name sdk projectPath initialPrompt now : String)
    (hcap : st.sessions.length = cfg.maxConcurrentSessions) :
    ∃ st' effs,
      resumeSession st cfg name sdk projectPath initialPrompt now = .ok (st', effs, name) ∧
      BridgeEffect.createSessionChannel name name ∈ effs ∧
      BridgeEffect.startSession name initialPrompt ∈ effs ∧
      (∃ info : SessionInfo, (name, info) ∈ st'.store ∧ info.sdkSessionId = some sdk) ∧
      (∃ live : LiveSession, (name, live) ∈ st'.sessions ∧ live.resumeSessionId = some sdk) := by
  refine ⟨_, _, rfl, ?_, ?_, ⟨_, mem_assocSet _ _ _, rfl⟩, ⟨_, mem_assocSet _ _ _, rfl⟩⟩
  · exact List.mem_cons_self _ _
  · simp

/-- Witness for the amended C4, at the same at-capacity manager as the
counterexample... -/
theorem resumeSession_no_capacity_check_witness :
    stFull.sessions.length = cfgOne.maxConcurrentSessions ∧
    ∃ st' effs,
      resumeSession stFull cfgOne "b" "sdk-42" "/proj/b" "go" "t0" = .ok (st', effs, "b") ∧
      BridgeEffect.createSessionChannel "b" "b" ∈ effs ∧
      BridgeEffect.startSession "b" "go" ∈ effs ∧
      (∃ info : SessionInfo, ("b", info) ∈ st'.store ∧ info.sdkSessionId = some "sdk-42") ∧
      (∃ live : LiveSession, ("b", live) ∈ st'.sessions ∧ live.resumeSessionId = some "sdk-42") :=
  ⟨rfl, resumeSession_no_capacity_check stFull cfgOne "b" "sdk-42" "/proj/b" "go" "t0" rfl⟩

/-! ## SDK session-id capture (C5) -/

/-- Claim **C5** (counterexample).  The remote-conversation handle is *not*
immutable once assigned: the stream loop assigns
`this.sdkSessionId = message.session_id` on *every* `init` record, so an
initialization record of a subsequent turn with a fresh id overwrites the
first value. -/
theorem sdkSessionId_overwrite_cex :
    List.foldl updateSdkSessionId none
      [AgentEvent.systemInit "sdk-first", AgentEvent.assistantRecord,
       AgentEvent.resultRecord, AgentEvent.systemInit "sdk-second"] =
      some "sdk-second" ∧
    ("sdk-second" : String) ≠ "sdk-first" := by
  constructor
  · rfl
  · decide

/-- The `lastOf` of a nonempty list is `some`. -/
theorem lastOf_cons_ne_none {α : Type} (b : α) (l : List α) :
    lastOf (b :: l) ≠ none := by
  induction l generalizing b with
  | nil => simp [lastOf]
  | cons c l ih => simpa [lastOf] using ih c

/-- The `lastOf` of a cons, expressed through `lastOf` of the tail. -/
theorem lastOf_cons {α : Type} (a : α) (l : List α) :
    lastOf (a :: l) = (lastOf l).or (some a) := by
  cases l with
  | nil => rfl
  | cons b l =>
    cases hl : lastOf (b :: l) with
    | some x => simp only [lastOf, hl, Option.or]
    | none => exact absurd hl (lastOf_cons_ne_none b l)

/-- Claim **C5** (amended).  The handle is captured from *every* initialization
record, last write wins: folding the stream-loop assignment over any event
list yields the session id of the last `init` record, or leaves the stored
value unchanged when the list contains no `init` record.  In particular
non-initialization events never change the handle, and a second `init`
record reassigns it. -/
theorem sdkSessionId_last_init (cur : Option String) (evs : List AgentEvent) :
    List.foldl updateSdkSessionId cur evs = (lastInitId evs).or cur := by
  induction evs generalizing cur with
  | nil => rfl
  | cons e evs ih =>
    cases e with
    | systemInit sid =>
      have hlast : lastInitId (AgentEvent.systemInit sid :: evs) =
          (lastInitId evs).or (some sid) := by
        unfold lastInitId
        rw [List.filterMap_cons]
        show lastOf (sid :: _) = _
        exact lastOf_cons sid _
      rw [List.foldl_cons, hlast]
      simp only [updateSdkSessionId]
      rw [ih (some sid)]
      cases lastInitId evs <;> rfl
    | systemCompactBoundary => simpa [lastInitId, List.filterMap_cons] using ih cur
    | streamEvent => simpa [lastInitId, List.filterMap_cons] using ih cur
    | userRecord => simpa [lastInitId, List.filterMap_cons] using ih cur
    | assistantRecord => simpa [lastInitId, List.filterMap_cons] using ih cur
    | resultRecord => simpa [lastInitId, List.filterMap_cons] using ih cur

/-! ## Permission Gate (C6, C10) -/

/-- Claim **C6** (confirmed).  For a tool in the session's sticky-approved set, or
a tool of the fixed read-only set while the auto-approve-read-only policy is
enabled, `handlePermission` returns `allow` immediately: the session state
(status and sticky set) is unchanged and no effect of any kind — no status
change, no suspension, no message through the Messaging Bridge — is
produced.  The pending human response is never consulted. -/
theorem handlePermission_fast_allow {α : Type} (sid : String) (s : PermState)
    (cfg : ConductorConfig) (toolName : String) (toolInput : α) (reqId : String)
    (response : PermissionResponse)
    (h : toolName ∈ s.autoApprovedTools ∨
         (cfg.autoApproveReadOnly ∧ toolName ∈ readOnlyTools)) :
    handlePermission sid s cfg toolName toolInput reqId response =
      (.allow toolInput, s, []) := by
  unfold handlePermission
  rcases h with h | h
  · rw [if_pos h]
  · by_cases h1 : toolName ∈ s.autoApprovedTools
    · rw [if_pos h1]
    · rw [if_neg h1, if_pos h]

/-- Witness for C6: a `Read` invocation with auto-approve-read-only enabled
and an empty sticky set is allowed with no effects, even though the human
response would have been a denial. -/
theorem handlePermission_fast_allow_witness :
    (("Read" : String) ∈ (⟨.working, []⟩ : PermState).autoApprovedTools ∨
      (cfgReadOnly.autoApproveReadOnly ∧ ("Read" : String) ∈ readOnlyTools)) ∧
    handlePermission "s1" ⟨.working, []⟩ cfgReadOnly "Read" "notes.txt" "r1"
        ⟨.deny, some "no", none⟩ =
      (.allow "notes.txt", ⟨.working, []⟩, []) :=
  ⟨Or.inr ⟨rfl, by decide⟩,
   handlePermission_fast_allow "s1" ⟨.working, []⟩ cfgReadOnly "Read" "notes.txt" "r1"
     ⟨.deny, some "no", none⟩ (Or.inr ⟨rfl, by decide⟩)⟩

/-- Claim **C10** (confirmed).  Every `allow` decision of `handlePermission`
carries `updatedInput` equal to the original `toolInput`: the gate never
modifies the tool input on any allow path. -/
theorem handlePermission_allow_preserves_input {α : Type} (sid : String) (s : PermState)
    (cfg : ConductorConfig) (toolName : String) (toolInput : α) (reqId : String)
    (response : PermissionResponse) (u : α) (s' : PermState) (effs : List GateEffect)
    (h : handlePermission sid s cfg toolName toolInput reqId response =
          (.allow u, s', effs)) :
    u = toolInput := by
  unfold handlePermission at h
  split at h
  · simp only [Prod.mk.injEq, PermissionResult.allow.injEq] at h
    exact h.1.symm
  · split at h
    · simp only [Prod.mk.injEq, PermissionResult.allow.injEq] at h
      exact h.1.symm
    · split at h <;> split at h <;>
        simp only [Prod.mk.injEq, PermissionResult.allow.injEq,
          reduceCtorEq, false_and] at h <;>
        exact h.1.symm

/-- Witness for C10: a human-approved (slow-path) allow with the
"allow all future uses" flag returns the input unmodified. -/
theorem handlePermission_allow_preserves_input_witness :
    handlePermission "s1" ⟨.working, []⟩ cfgOne "Bash" "make test" "r2"
        ⟨.allow, none, some true⟩ =
      (.allow "make test", ⟨.working, ["Bash"]⟩,
       [.statusChanged "s1" .waiting, .updateSessionStatus "s1" .waiting,
        .sendPermissionRequest "s1" "r2" "Bash",
        .statusChanged "s1" .working, .updateSessionStatus "s1" .working]) ∧
    ("make test" : String) = "make test" :=
  ⟨by decide,
   handlePermission_allow_preserves_input "s1" ⟨.working, []⟩ cfgOne "Bash" "make test"
     "r2" ⟨.allow, none, some true⟩ "make test" ⟨.working, ["Bash"]⟩
     [.statusChanged "s1" .waiting, .updateSessionStatus "s1" .waiting,
      .sendPermissionRequest "s1" "r2" "Bash",
      .statusChanged "s1" .working, .updateSessionStatus "s1" .working] (by decide)⟩

/-! ## Multi-turn loop machine (C7, C8) -/

/-- The loop invariant holds in every reachable state: a pending message
resolver exists only while the loop is suspended at the operator-message
wait, and then the queue is empty, the status is `waiting`, and no abort has
happened. -/
theorem reachable_loopInv {s : LoopState} (h : Reachable s) : LoopInv s := by
  induction h with
  | init prompt =>
    intro hres
    exact absurd hres (by simp [initialLoopState])
  | beginTurn hr hp ih =>
    intro hres
    have h1 := (ih hres).1
    rw [hp] at h1
    exact absurd h1 (by simp)
  | turnEnd cfg hr hp ih =>
    rename_i s p
    by_cases ha : s.aborted = true
    · intro hres
      simp only [stepTurnEnd, if_pos ha] at hres
      have h1 := (ih hres).1
      rw [hp] at h1
      exact absurd h1 (by simp)
    · cases hq : s.queue with
      | cons m rest =>
        intro hres
        simp only [stepTurnEnd, if_neg ha, hq] at hres
        have h1 := (ih hres).1
        rw [hp] at h1
        exact absurd h1 (by simp)
      | nil =>
        intro _
        simp only [stepTurnEnd, if_neg ha, hq]
        simpa using ha
  | send text hr ih =>
    rename_i s
    by_cases hres0 : s.resolverSet = true
    · intro hres
      simp only [stepSend, if_pos hres0] at hres
      exact absurd hres (by decide)
    · intro hres
      simp only [stepSend, if_neg hres0] at hres
      exact absurd hres hres0
  | abort hr ih =>
    rename_i s
    by_cases hres0 : s.resolverSet = true
    · intro hres
      simp only [stepAbort, if_pos hres0] at hres
      exact absurd hres (by decide)
    · intro hres
      simp only [stepAbort, if_neg hres0] at hres
      exact absurd hres hres0

/-- Claim **C7** (confirmed).  In every reachable loop state: a `sendMessage`
while a wait is pending resolves it immediately with exactly the sent text
and schedules that text as the next turn's prompt; a `sendMessage` with no
pending wait (in particular, always while the status is `working`, since a
pending resolver forces status `waiting`) only appends the text to the FIFO
queue, changing nothing else — no second turn starts; and at the next
waiting point the loop consumes exactly the head of the queue as the next
turn's prompt. -/
theorem session_sendMessage_fifo (s : LoopState) (t m : String) (rest : List String)
    (cfg : ConductorConfig) (p : String) (hr : Reachable s) :
    (s.resolverSet = true →
      stepSend s t = ({ s with resolverSet := false, phase := .startingTurn t },
                      [.resolved t]) ∧
      s.phase = .waitingForMessage) ∧
    (s.resolverSet = false →
      stepSend s t = ({ s with queue := s.queue ++ [t] }, [])) ∧
    (s.status = .working → s.resolverSet = false) ∧
    (s.phase = .inTurn p → s.queue = m :: rest → s.aborted = false →
      (stepTurnEnd cfg s).1 =
        { s with status := .waiting, queue := rest, phase := .startingTurn m }) := by
  refine ⟨?_, ?_, ?_, ?_⟩
  · intro hres
    obtain ⟨hph, hq, hst, hab⟩ := reachable_loopInv hr hres
    refine ⟨?_, hph⟩
    simp [stepSend, hres, hab]
  · intro hres
    simp [stepSend, hres]
  · intro hst
    by_cases hres : s.resolverSet = true
    · have h1 := (reachable_loopInv hr hres).2.2.1
      rw [hst] at h1
      exact absurd h1 (by simp)
    · simpa using hres
  · intro hph hq hab
    simp [stepTurnEnd, hab, hq]

/-- Witness for C7 at a reachable mid-turn state holding two queued
messages. -/
theorem session_sendMessage_fifo_witness :
    ((loopWorking.resolverSet = true →
      stepSend loopWorking "third" =
        ({ loopWorking with resolverSet := false, phase := .startingTurn "third" },
         [.resolved "third"]) ∧
      loopWorking.phase = .waitingForMessage) ∧
    (loopWorking.resolverSet = false →
      stepSend loopWorking "third" = ({ loopWorking with queue := loopWorking.queue ++ ["third"] }, [])) ∧
    (loopWorking.status = .working → loopWorking.resolverSet = false) ∧
    (loopWorking.phase = .inTurn "p0" → loopWorking.queue = "first" :: ["second"] →
      loopWorking.aborted = false →
      (stepTurnEnd cfgOne loopWorking).1 =
        { loopWorking with status := .waiting, queue := ["second"],
                           phase := .startingTurn "first" })) :=
  session_sendMessage_fifo loopWorking "third" "first" ["second"] cfgOne "p0"
    (Reachable.send "second" (Reachable.send "first"
      (Reachable.beginTurn (Reachable.init "p0") rfl)))

/-- Claim **C8** (confirmed).  `abort()` on a session suspended at the
operator-message wait resolves the wait exactly once, with the empty
string; the status becomes `idle`; the queue was already empty at the
suspension point and stays empty; and a second `abort()` leaves the state
unchanged (state-idempotent). -/
theorem abort_unblocks_once (s : LoopState) (hr : Reachable s)
    (hres : s.resolverSet = true) :
    stepAbort s =
      ({ s with aborted := true, status := .idle, resolverSet := false, phase := .done },
       [.statusSet .idle, .resolved ""]) ∧
    s.queue = [] ∧
    (stepAbort s).1.queue = [] ∧
    stepAbort (stepAbort s).1 = ((stepAbort s).1, [.statusSet .idle]) := by
  obtain ⟨hph, hq, hst, hab⟩ := reachable_loopInv hr hres
  have h1 : stepAbort s =
      ({ s with aborted := true, status := .idle, resolverSet := false, phase := .done },
       [.statusSet .idle, .resolved ""]) := by
    simp [stepAbort, hres]
  refine ⟨h1, hq, ?_, ?_⟩
  · rw [h1]
    exact hq
  · rw [h1]
    rfl

/-- Witness for C8 at the reachable suspended state. -/
theorem abort_unblocks_once_witness :
    loopWaiting.resolverSet = true ∧
    (stepAbort loopWaiting =
      ({ loopWaiting with aborted := true, status := .idle, resolverSet := false,
                          phase := .done },
       [.statusSet .idle, .resolved ""]) ∧
    loopWaiting.queue = [] ∧
    (stepAbort loopWaiting).1.queue = [] ∧
    stepAbort (stepAbort loopWaiting).1 = ((stepAbort loopWaiting).1, [.statusSet .idle])) :=
  ⟨rfl, abort_unblocks_once loopWaiting
    (Reachable.turnEnd cfgOne (Reachable.beginTurn (Reachable.init "p0") rfl) rfl) rfl⟩

/-! ## Streaming pipeline: index scans -/

/-- A hit of the downward scan lies below the scan bound. -/
theorem lastIdxGo_lt {pat s : Text} : ∀ {n i : Nat}, lastIdxGo pat s n = some i → i < n := by
  intro n
  induction n with
  | zero => intro i h; exact absurd h (by simp [lastIdxGo])
  | succ n ih =>
    intro i h
    unfold lastIdxGo at h
    split at h
    · cases h
      exact Nat.lt_succ_self n
    · exact Nat.lt_succ_of_lt (ih h)

/-- A hit of the downward scan is an occurrence. -/
theorem lastIdxGo_occurs {pat s : Text} :
    ∀ {n i : Nat}, lastIdxGo pat s n = some i → pat.isPrefixOf (s.drop i) := by
  intro n
  induction n with
  | zero => intro i h; exact absurd h (by simp [lastIdxGo])
  | succ n ih =>
    intro i h
    unfold lastIdxGo at h
    split at h
    · cases h
      assumption
    · exact ih h

/-- The `lastIndexOfFrom` returns an index at most `pos`. -/
theorem lastIndexOfFrom_le {pat s : Text} {pos i : Nat}
    (h : lastIndexOfFrom pat s pos = some i) : i ≤ pos :=
  Nat.lt_succ_iff.1 (lastIdxGo_lt h)

/-- The `lastIndexOfFrom` returns an occurrence. -/
theorem lastIndexOfFrom_occurs {pat s : Text} {pos i : Nat}
    (h : lastIndexOfFrom pat s pos = some i) : pat.isPrefixOf (s.drop i) :=
  lastIdxGo_occurs h

/-- A hit of the upward scan is an occurrence. -/
theorem idxGo_occurs {pat s : Text} :
    ∀ {k start i : Nat}, idxGo pat s start k = some i → pat.isPrefixOf (s.drop i) := by
  intro k
  induction k with
  | zero => intro start i h; exact absurd h (by simp [idxGo])
  | succ k ih =>
    intro start i h
    unfold idxGo at h
    split at h
    · cases h
      assumption
    · exact ih h

/-- The `indexOfFrom` returns an occurrence. -/
theorem indexOfFrom_occurs {pat s : Text} {start i : Nat}
    (h : indexOfFrom pat s start = some i) : pat.isPrefixOf (s.drop i) :=
  idxGo_occurs h

/-- A passed threshold check hands back the found index. -/
theorem overThreshold_eq_some {found : Option Nat} {maxLength i : Nat}
    (h : overThreshold found maxLength = some i) :
    found = some i ∧ 10 * i > 3 * maxLength := by
  cases found with
  | none => exact absurd h (by simp [overThreshold])
  | some j =>
    by_cases hj : 10 * j > 3 * maxLength
    · have hov : overThreshold (some j) maxLength = some j := by
        simp [overThreshold, hj]
      rw [hov] at h
      cases h
      exact ⟨rfl, hj⟩
    · have hov : overThreshold (some j) maxLength = none := by
        simp [overThreshold, hj]
      rw [hov] at h
      cases h

/-- The split index of one iteration never exceeds `maxLength + 1` (the
`+ 1` because `lastIndexOf(_, maxLength)` can hit index `maxLength` itself
and the newline/space/boundary branches add one). -/
theorem computeSplitIndex_le (remaining : Text) (maxLength : Nat) :
    computeSplitIndex remaining maxLength ≤ maxLength + 1 := by
  unfold computeSplitIndex
  split
  case h_1 cbe heq =>
    have hcbe := (overThreshold_eq_some heq).1
    have hle : cbe ≤ maxLength := lastIndexOfFrom_le hcbe
    split
    case h_1 ab hab =>
      split
      · omega
      · omega
    case h_2 => omega
  case h_2 =>
    split
    case h_1 ln hln =>
      have := lastIndexOfFrom_le (overThreshold_eq_some hln).1
      omega
    case h_2 =>
      split
      case h_1 ls hls =>
        have := lastIndexOfFrom_le (overThreshold_eq_some hls).1
        omega
      case h_2 => omega

/-! ## Streaming pipeline: chunk-size bounds (C2) -/

/-- Every chunk the loop emits has length at most `maxLength + 5`: a slice
of length at most `maxLength + 1`, plus the four characters of an appended
closing marker. -/
theorem chunkLoop_length_le (maxLength : Nat) :
    ∀ (fuel : Nat) (remaining : Text) (chunks : List Text),
      chunkLoop maxLength fuel remaining = some chunks →
      ∀ c ∈ chunks, c.length ≤ maxLength + 5 := by
  intro fuel
  induction fuel with
  | zero => intro remaining chunks h; exact absurd h (by simp [chunkLoop])
  | succ fuel ih =>
    intro remaining chunks h c hc
    simp only [chunkLoop] at h
    split at h
    · cases h
      simp at hc
    · split at h
      · cases h
        rw [List.mem_singleton.1 hc]
        omega
      · rename_i hlen0 hlen
        split at h
        · obtain ⟨cs, hcs, rfl⟩ := Option.map_eq_some'.1 h
          rcases List.mem_cons.1 hc with rfl | hmem
          · have h1 : (remaining.take (computeSplitIndex remaining maxLength)).length
                ≤ maxLength + 1 := by
              rw [List.length_take]
              exact le_trans (Nat.min_le_left _ _) (computeSplitIndex_le remaining maxLength)
            rw [List.length_append]
            have h2 : closeMarker.length = 4 := rfl
            omega
          · exact ih _ _ hcs c hmem
        · obtain ⟨cs, hcs, rfl⟩ := Option.map_eq_some'.1 h
          rcases List.mem_cons.1 hc with rfl | hmem
          · rw [List.length_take]
            have := computeSplitIndex_le remaining maxLength
            omega
          · exact ih _ _ hcs c hmem

/-- Claim **C2** (counterexample).  Both halves of the claim fail on the code.
An empty input is at most `maxLength` long, so `chunkMessage` returns it as
the single chunk without filtering: the returned chunk is empty.  And with
`maxLength = 10`, an input with a newline at index 10 splits at
`lastIndexOf("\n", 10) + 1 = 11`, so the first returned chunk is 11 > 10
characters long. -/
theorem chunkMessage_bounds_cex :
    chunkMessage 5 ([] : Text) 10 = some [[]] ∧
    chunkMessage 20 ("aaaaaaaaaa\nbbbb".toList) 10 =
      some ["aaaaaaaaaa\n".toList, "bbbb".toList] ∧
    ("aaaaaaaaaa\n".toList).length = 11 := by
  refine ⟨rfl, ?_, rfl⟩
  rfl

/-- Claim **C2** (amended).  Whenever `chunkMessage` terminates: every returned
chunk has length at most `maxLength + 5` (the split index can land one past
`maxLength`, and an appended closing marker adds four more characters); when
the input is longer than `maxLength`, no returned chunk is empty or
whitespace-only; but an input of at most `maxLength` characters is returned
verbatim as the single chunk, even when it is empty or whitespace-only. -/
theorem chunkMessage_bounds_amended (fuel : Nat) (text : Text) (maxLength : Nat)
    (chunks : List Text) (h : chunkMessage fuel text maxLength = some chunks) :
    (∀ c ∈ chunks, c.length ≤ maxLength + 5) ∧
    (maxLength < text.length → ∀ c ∈ chunks, trimNonempty c = true) ∧
    (text.length ≤ maxLength → chunks = [text]) := by
  unfold chunkMessage at h
  by_cases hle : text.length ≤ maxLength
  · rw [if_pos hle] at h
    cases h
    refine ⟨?_, ?_, fun _ => rfl⟩
    · intro c hc
      rw [List.mem_singleton.1 hc]
      omega
    · intro hcontra
      omega
  · rw [if_neg hle] at h
    obtain ⟨cs, hcs, rfl⟩ := Option.map_eq_some'.1 h
    refine ⟨?_, ?_, ?_⟩
    · intro c hc
      exact chunkLoop_length_le maxLength fuel text cs hcs c (List.mem_of_mem_filter hc)
    · intro _ c hc
      exact List.of_mem_filter hc
    · intro hcontra
      exact absurd hcontra hle

/-- Witness for the amended C2 at a concrete split input. -/
theorem chunkMessage_bounds_amended_witness :
    chunkMessage 20 ("aaaaaaaaaa\nbbbb".toList) 10 =
      some ["aaaaaaaaaa\n".toList, "bbbb".toList] ∧
    ((∀ c ∈ ["aaaaaaaaaa\n".toList, "bbbb".toList], c.length ≤ 10 + 5) ∧
     (10 < ("aaaaaaaaaa\nbbbb".toList).length →
       ∀ c ∈ ["aaaaaaaaaa\n".toList, "bbbb".toList], trimNonempty c = true) ∧
     (("aaaaaaaaaa\nbbbb".toList).length ≤ 10 →
       ["aaaaaaaaaa\n".toList, "bbbb".toList] = ["aaaaaaaaaa\nbbbb".toList])) :=
  ⟨rfl, chunkMessage_bounds_amended 20 ("aaaaaaaaaa\nbbbb".toList) 10
    ["aaaaaaaaaa\n".toList, "bbbb".toList] rfl⟩

/-! ## Streaming pipeline: round trip (C1) -/

/-- Erasure: assembling the provenance-tracked chunks (`pre ++ orig ++
post`) recovers `chunkLoop` exactly, for every split of the loop state
`remaining = ins ++ orig`.  So `instrLoop` is the source loop plus
bookkeeping. -/
theorem instrLoop_erase (maxLength : Nat) :
    ∀ (fuel : Nat) (ins orig : Text),
      chunkLoop maxLength fuel (ins ++ orig) =
        (instrLoop maxLength fuel ins orig).map (List.map ChunkPart.assemble) := by
  intro fuel
  induction fuel with
  | zero => intro ins orig; rfl
  | succ fuel ih =>
    intro ins orig
    simp only [chunkLoop, instrLoop]
    by_cases h0 : (ins ++ orig).length = 0
    · rw [if_pos h0, if_pos h0]
      rfl
    · rw [if_neg h0, if_neg h0]
      by_cases h1 : (ins ++ orig).length ≤ maxLength
      · rw [if_pos h1, if_pos h1]
        simp [ChunkPart.assemble]
      · rw [if_neg h1, if_neg h1]
        have htake : (ins ++ orig).take (computeSplitIndex (ins ++ orig) maxLength) =
            ins.take (computeSplitIndex (ins ++ orig) maxLength) ++
              orig.take (computeSplitIndex (ins ++ orig) maxLength - ins.length) :=
          List.take_append_eq_append_take
        have hdrop : (ins ++ orig).drop (computeSplitIndex (ins ++ orig) maxLength) =
            ins.drop (computeSplitIndex (ins ++ orig) maxLength) ++
              orig.drop (computeSplitIndex (ins ++ orig) maxLength - ins.length) :=
          List.drop_append_eq_append_drop
        by_cases hodd :
            countTicks ((ins ++ orig).take (computeSplitIndex (ins ++ orig) maxLength)) % 2 = 1
        · rw [if_pos hodd, if_pos hodd]
          rw [hdrop, ← List.append_assoc, ih]
          cases instrLoop maxLength fuel
              (reopenMarker
                  (extractLang ((ins ++ orig).take (computeSplitIndex (ins ++ orig) maxLength))) ++
                ins.drop (computeSplitIndex (ins ++ orig) maxLength))
              (orig.drop (computeSplitIndex (ins ++ orig) maxLength - ins.length)) with
          | none => rfl
          | some ps =>
            simp only [Option.map_some', List.map_cons, ChunkPart.assemble]
            rw [htake, List.append_assoc]
        · rw [if_neg hodd, if_neg hodd]
          rw [hdrop, ih]
          cases instrLoop maxLength fuel
              (ins.drop (computeSplitIndex (ins ++ orig) maxLength))
              (orig.drop (computeSplitIndex (ins ++ orig) maxLength - ins.length)) with
          | none => rfl
          | some ps =>
            simp only [Option.map_some', List.map_cons, ChunkPart.assemble]
            rw [htake, List.append_nil]

/-- Round trip: the `orig` components of the provenance-tracked chunks
concatenate to exactly the loop-state's original text, whatever inserted
text is pending at its head. -/
theorem instrLoop_roundtrip (maxLength : Nat) :
    ∀ (fuel : Nat) (ins orig : Text) (parts : List ChunkPart),
      instrLoop maxLength fuel ins orig = some parts →
      (parts.map ChunkPart.orig).flatten = orig := by
  intro fuel
  induction fuel with
  | zero => intro ins orig parts h; exact absurd h (by simp [instrLoop])
  | succ fuel ih =>
    intro ins orig parts h
    simp only [instrLoop] at h
    split at h
    · cases h
      rename_i h0
      have horig : orig = [] := (List.append_eq_nil.1 (List.length_eq_zero.1 h0)).2
      simp [horig]
    · split at h
      · cases h
        simp
      · split at h
        · obtain ⟨ps, hps, rfl⟩ := Option.map_eq_some'.1 h
          simp only [List.map_cons, List.flatten_cons]
          rw [ih _ _ _ hps, List.take_append_drop]
        · obtain ⟨ps, hps, rfl⟩ := Option.map_eq_some'.1 h
          simp only [List.map_cons, List.flatten_cons]
          rw [ih _ _ _ hps, List.take_append_drop]

/-- Claim **C1** (counterexample).  A whitespace-only input longer than the
maximum is chunked into whitespace-only chunks, *all* of which the final
filter drops: `chunkMessage` returns the empty chunk list, whose
concatenation (no markers were even inserted) is empty and differs from the
original text. -/
theorem chunkMessage_roundtrip_cex :
    chunkMessage 20 ("               ".toList) 10 = some [] ∧
    "               ".toList ≠ ([] : Text) := by
  refine ⟨rfl, ?_⟩
  decide

/-- Claim **C1** (amended).  The round trip holds *before* the final
empty/whitespace filter: whenever the pipeline terminates, deleting from
each produced chunk exactly the inserted closing marker and the inserted
reopening-marker text and concatenating what remains yields the original
text; the chunk list `chunkMessage` actually returns is that assembled list
minus its whitespace-only chunks (each one a whitespace-only slice of the
original, lost to the reconstruction), with no filtering in the single-chunk
case. -/
theorem chunkMessage_roundtrip_amended (fuel : Nat) (text : Text) (maxLength : Nat)
    (parts : List ChunkPart) (h : chunkParts fuel text maxLength = some parts) :
    (parts.map ChunkPart.orig).flatten = text ∧
    chunkMessage fuel text maxLength =
      some (if text.length ≤ maxLength then parts.map ChunkPart.assemble
            else (parts.map ChunkPart.assemble).filter trimNonempty) := by
  unfold chunkParts at h
  unfold chunkMessage
  by_cases hle : text.length ≤ maxLength
  · rw [if_pos hle] at h ⊢
    cases h
    refine ⟨by simp, ?_⟩
    rw [if_pos hle]
    simp [ChunkPart.assemble]
  · rw [if_neg hle] at h ⊢
    refine ⟨instrLoop_roundtrip maxLength fuel [] text parts h, ?_⟩
    have he := instrLoop_erase maxLength fuel [] text
    rw [List.nil_append] at he
    rw [he, h, if_neg hle]
    rfl

/-- Witness for the amended C1 at an input that splits twice inside an open
```` ```js ```` block. -/
theorem chunkMessage_roundtrip_amended_witness :
    chunkParts 20 ("```js\nx\n```\nmore over ten".toList) 10 =
      some [⟨[], "```js\nx".toList, closeMarker⟩,
            ⟨"```js\n".toList, "\n```\n".toList, []⟩,
            ⟨[], "more over ".toList, []⟩,
            ⟨[], "ten".toList, []⟩] ∧
    (([⟨[], "```js\nx".toList, closeMarker⟩,
       ⟨"```js\n".toList, "\n```\n".toList, []⟩,
       ⟨[], "more over ".toList, []⟩,
       ⟨[], "ten".toList, []⟩] : List ChunkPart).map ChunkPart.orig).flatten =
      "```js\nx\n```\nmore over ten".toList ∧
    chunkMessage 20 ("```js\nx\n```\nmore over ten".toList) 10 =
      some (if ("```js\nx\n```\nmore over ten".toList).length ≤ 10 then
              ([⟨[], "```js\nx".toList, closeMarker⟩,
                ⟨"```js\n".toList, "\n```\n".toList, []⟩,
                ⟨[], "more over ".toList, []⟩,
                ⟨[], "ten".toList, []⟩] : List ChunkPart).map ChunkPart.assemble
            else (([⟨[], "```js\nx".toList, closeMarker⟩,
                    ⟨"```js\n".toList, "\n```\n".toList, []⟩,
                    ⟨[], "more over ".toList, []⟩,
                    ⟨[], "ten".toList, []⟩] : List ChunkPart).map
              ChunkPart.assemble).filter trimNonempty) :=
  ⟨rfl,
   chunkMessage_roundtrip_amended 20 ("```js\nx\n```\nmore over ten".toList) 10
     [⟨[], "```js\nx".toList, closeMarker⟩,
      ⟨"```js\n".toList, "\n```\n".toList, []⟩,
      ⟨[], "more over ".toList, []⟩,
      ⟨[], "ten".toList, []⟩] rfl⟩

/-! ## Streaming pipeline: close/reopen around a split (C9) -/

/-- In `"```js\n" ++ r`, no newline, space, or block boundary occurs at a
start index below 5: the first five characters are `` ` ``, `` ` ``,
`` ` ``, `j`, `s`. -/
theorem js_marker_no_early_break (r : Text) :
    ∀ i < 5,
      ['\n'].isPrefixOf ((reopenMarker jsTag ++ r).drop i) = false ∧
      [' '].isPrefixOf ((reopenMarker jsTag ++ r).drop i) = false ∧
      closeMarker.isPrefixOf ((reopenMarker jsTag ++ r).drop i) = false := by
  intro i hi
  interval_cases i <;>
    refine ⟨?_, ?_, ?_⟩ <;>
      simp [reopenMarker, jsTag, threeTicks, closeMarker, List.isPrefixOf]

/-- With `maxLength ≥ 5`, one loop iteration on a remaining text that
starts with the reopening marker `"```js\n"` splits at index 5 or later:
every split-point candidate is an occurrence of `"\n```"`, `"\n"` or
`" "` (all impossible below index 5), or the hard cut at `maxLength`. -/
theorem computeSplitIndex_js_ge (r : Text) (maxLength : Nat) (h5 : 5 ≤ maxLength) :
    5 ≤ computeSplitIndex (reopenMarker jsTag ++ r) maxLength := by
  have hnl : ∀ i : Nat, ['\n'].isPrefixOf ((reopenMarker jsTag ++ r).drop i) = true → 5 ≤ i := by
    intro i hpre
    by_contra hlt
    rw [(js_marker_no_early_break r i (by omega)).1] at hpre
    cases hpre
  have hsp : ∀ i : Nat, [' '].isPrefixOf ((reopenMarker jsTag ++ r).drop i) = true → 5 ≤ i := by
    intro i hpre
    by_contra hlt
    rw [(js_marker_no_early_break r i (by omega)).2.1] at hpre
    cases hpre
  have hcm : ∀ i : Nat, closeMarker.isPrefixOf ((reopenMarker jsTag ++ r).drop i) = true → 5 ≤ i := by
    intro i hpre
    by_contra hlt
    rw [(js_marker_no_early_break r i (by omega)).2.2] at hpre
    cases hpre
  unfold computeSplitIndex
  split
  case h_1 cbe heq =>
    have hcbe : 5 ≤ cbe := hcm cbe (lastIndexOfFrom_occurs (overThreshold_eq_some heq).1)
    split
    case h_1 ab hab =>
      have : 5 ≤ ab := hnl ab (indexOfFrom_occurs hab)
      split <;> omega
    case h_2 => omega
  case h_2 =>
    split
    case h_1 ln hln =>
      have : 5 ≤ ln := hnl ln (lastIndexOfFrom_occurs (overThreshold_eq_some hln).1)
      omega
    case h_2 =>
      split
      case h_1 ls hls =>
        have : 5 ≤ ls := hsp ls (lastIndexOfFrom_occurs (overThreshold_eq_some hls).1)
        omega
      case h_2 => omega

/-- When the loop state starts with the reopening marker `"```js\n"`, the
next emitted chunk begins with ```` ```js ````: either the whole remaining
text fits in one final chunk, or a split lands at index ≥ 5 so the slice
keeps the marker's first five characters (an appended closing marker cannot
change them). -/
theorem instrLoop_head_js (maxLength : Nat) (h5 : 5 ≤ maxLength) (fuel : Nat)
    (ins orig r : Text) (parts : List ChunkPart)
    (hins : ins ++ orig = reopenMarker jsTag ++ r)
    (h : instrLoop maxLength fuel ins orig = some parts) :
    ∃ q qs, parts = q :: qs ∧ q.assemble.take 5 = threeTicks ++ jsTag := by
  cases fuel with
  | zero => exact absurd h (by simp [instrLoop])
  | succ fuel =>
    simp only [instrLoop] at h
    have hne : ¬((ins ++ orig).length = 0) := by
      rw [hins]
      simp [reopenMarker, jsTag, threeTicks]
    rw [if_neg hne] at h
    by_cases h1 : (ins ++ orig).length ≤ maxLength
    · rw [if_pos h1] at h
      cases h
      refine ⟨_, _, rfl, ?_⟩
      show (ins ++ orig ++ []).take 5 = threeTicks ++ jsTag
      rw [List.append_nil, hins]
      rfl
    · rw [if_neg h1] at h
      have hsi5 : 5 ≤ computeSplitIndex (ins ++ orig) maxLength := by
        rw [hins]
        exact computeSplitIndex_js_ge r maxLength h5
      have hlen5 : 5 ≤ (ins ++ orig).length := by
        rw [hins]
        simp [reopenMarker, jsTag, threeTicks]
      have hA : ins.take (computeSplitIndex (ins ++ orig) maxLength) ++
            orig.take (computeSplitIndex (ins ++ orig) maxLength - ins.length) =
          (ins ++ orig).take (computeSplitIndex (ins ++ orig) maxLength) :=
        List.take_append_eq_append_take.symm
      have hAlen : 5 ≤ ((ins ++ orig).take (computeSplitIndex (ins ++ orig) maxLength)).length := by
        rw [List.length_take]
        omega
      have hA5 : ((ins ++ orig).take (computeSplitIndex (ins ++ orig) maxLength)).take 5 =
          threeTicks ++ jsTag := by
        rw [List.take_take, Nat.min_eq_left hsi5, hins]
        rfl
      split at h <;>
        obtain ⟨ps, hps, rfl⟩ := Option.map_eq_some'.1 h <;>
        refine ⟨_, ps, rfl, ?_⟩ <;>
        simp only [ChunkPart.assemble] <;>
        rw [List.take_append_eq_append_take, hA,
            show 5 - ((ins ++ orig).take (computeSplitIndex (ins ++ orig) maxLength)).length = 0
              from by omega,
            List.take_zero, List.append_nil] <;>
        exact hA5

/-- Evaluation of `countTicks` on a one-element list with a symbolic
character (the compiled matcher tests the character, so this is not
definitional). -/
theorem countTicks_one (c : Char) : countTicks [c] = 0 := by
  rw [countTicks.eq_def]
  split
  · rename_i heq
    exact absurd heq (by simp)
  · rename_i heq
    cases heq
    rfl
  · rename_i heq
    exact absurd heq (by simp)

/-- Evaluation of `countTicks` on a two-element list. -/
theorem countTicks_two (c d : Char) : countTicks [c, d] = 0 := by
  rw [countTicks.eq_def]
  split
  · rename_i heq
    exact absurd heq (by simp)
  · rename_i heq
    cases heq
    exact countTicks_one d
  · rename_i heq
    exact absurd heq (by simp)

/-- Unfolding of `countTicks` on a list of three or more characters, as a
conditional on the leading characters. -/
theorem countTicks_cons3 (c1 c2 c3 : Char) (rest : Text) :
    countTicks (c1 :: c2 :: c3 :: rest) =
      if c1 = '\x60' ∧ c2 = '\x60' ∧ c3 = '\x60' then countTicks rest + 1
      else countTicks (c2 :: c3 :: rest) := by
  by_cases hall : c1 = '\x60' ∧ c2 = '\x60' ∧ c3 = '\x60'
  · obtain ⟨rfl, rfl, rfl⟩ := hall
    rw [if_pos ⟨rfl, rfl, rfl⟩]
    rfl
  · rw [if_neg hall]
    rw [countTicks.eq_def]
    split
    · rename_i rest' heq
      injection heq with h1 heq
      injection heq with h2 heq
      injection heq with h3 heq
      exact absurd ⟨h1, h2, h3⟩ hall
    · rename_i c' rest' heq
      cases heq
      rfl
    · rename_i heq
      exact absurd heq (by simp)

/-- A text shorter than a fence contains no fence. -/
theorem countTicks_short (l : Text) (hlen : l.length ≤ 2) : countTicks l = 0 := by
  obtain _ | ⟨c1, _ | ⟨c2, _ | ⟨c3, t⟩⟩⟩ := l
  · rfl
  · exact countTicks_one c1
  · exact countTicks_two c1 c2
  · simp only [List.length_cons] at hlen
    omega

/-- A three-character text with an odd fence count is the fence itself. -/
theorem eq_threeTicks_of_odd (l : Text) (hlen : l.length = 3)
    (hodd : countTicks l % 2 = 1) : l = threeTicks := by
  obtain _ | ⟨c1, _ | ⟨c2, _ | ⟨c3, t⟩⟩⟩ := l
  · simp at hlen
  · simp at hlen
  · simp at hlen
  · have ht : t = [] := by
      simp only [List.length_cons] at hlen
      exact List.length_eq_zero.1 (by omega)
    subst ht
    rw [countTicks_cons3] at hodd
    split at hodd
    · rename_i hall
      obtain ⟨rfl, rfl, rfl⟩ := hall
      rfl
    · rw [countTicks_two] at hodd
      simp at hodd

/-- Exhaustive description of the split index: it is the hard cut at
`maxLength`, or it is determined by an occurrence of `"\n```"`, `"\n"` or
`" "` at a start index at most `maxLength`. -/
theorem computeSplitIndex_cases (remaining : Text) (maxLength : Nat) :
    computeSplitIndex remaining maxLength = maxLength ∨
    (∃ j, computeSplitIndex remaining maxLength = j ∧ j ≤ maxLength ∧
      closeMarker.isPrefixOf (remaining.drop j) = true) ∨
    (∃ j, computeSplitIndex remaining maxLength = j + 1 ∧ j ≤ maxLength ∧
      ['\n'].isPrefixOf (remaining.drop j) = true) ∨
    (∃ j, computeSplitIndex remaining maxLength = j + 1 ∧ j ≤ maxLength ∧
      [' '].isPrefixOf (remaining.drop j) = true) := by
  rcases hcbe : overThreshold (lastIndexOfFrom closeMarker remaining maxLength) maxLength
    with _ | cbe
  · rcases hln : overThreshold (lastIndexOfFrom ['\n'] remaining maxLength) maxLength
      with _ | ln
    · rcases hls : overThreshold (lastIndexOfFrom [' '] remaining maxLength) maxLength
        with _ | ls
      · exact Or.inl (by simp [computeSplitIndex, hcbe, hln, hls])
      · refine Or.inr (Or.inr (Or.inr ⟨ls, ?_, ?_, ?_⟩))
        · simp [computeSplitIndex, hcbe, hln, hls]
        · exact lastIndexOfFrom_le (overThreshold_eq_some hls).1
        · exact lastIndexOfFrom_occurs (overThreshold_eq_some hls).1
    · refine Or.inr (Or.inr (Or.inl ⟨ln, ?_, ?_, ?_⟩))
      · simp [computeSplitIndex, hcbe, hln]
      · exact lastIndexOfFrom_le (overThreshold_eq_some hln).1
      · exact lastIndexOfFrom_occurs (overThreshold_eq_some hln).1
  · rcases hab : indexOfFrom ['\n'] remaining (cbe + 4) with _ | ab
    · refine Or.inr (Or.inl ⟨cbe, ?_, ?_, ?_⟩)
      · simp [computeSplitIndex, hcbe, hab]
      · exact lastIndexOfFrom_le (overThreshold_eq_some hcbe).1
      · exact lastIndexOfFrom_occurs (overThreshold_eq_some hcbe).1
    · by_cases hable : ab ≤ maxLength
      · refine Or.inr (Or.inr (Or.inl ⟨ab, ?_, hable, indexOfFrom_occurs hab⟩))
        simp [computeSplitIndex, hcbe, hab, hable]
      · refine Or.inr (Or.inl ⟨cbe, ?_, ?_, ?_⟩)
        · simp [computeSplitIndex, hcbe, hab, hable]
        · exact lastIndexOfFrom_le (overThreshold_eq_some hcbe).1
        · exact lastIndexOfFrom_occurs (overThreshold_eq_some hcbe).1

/-- A split whose slice has an odd fence count forces `maxLength ≥ 3`: the
slice must contain a whole fence, and below `maxLength = 3` every split
candidate is too short or would need a newline or space under a fence
character. -/
theorem maxLength_ge_three_of_odd (remaining : Text) (maxLength : Nat)
    (hgt : maxLength < remaining.length)
    (hodd : countTicks (remaining.take (computeSplitIndex remaining maxLength)) % 2 = 1) :
    3 ≤ maxLength := by
  by_contra hcon
  have hsile := computeSplitIndex_le remaining maxLength
  have hchunklen : (remaining.take (computeSplitIndex remaining maxLength)).length =
      computeSplitIndex remaining maxLength := by
    rw [List.length_take]
    omega
  have hsi3 : computeSplitIndex remaining maxLength = 3 := by
    rcases Nat.lt_or_ge (computeSplitIndex remaining maxLength) 3 with hlt | hge
    · have h0 := countTicks_short (remaining.take (computeSplitIndex remaining maxLength))
        (by rw [hchunklen]; omega)
      rw [h0] at hodd
      simp at hodd
    · omega
  have hchunk : remaining.take (computeSplitIndex remaining maxLength) = threeTicks :=
    eq_threeTicks_of_odd _ (by rw [hchunklen, hsi3]) hodd
  have hrem : remaining = threeTicks ++ remaining.drop 3 := by
    conv_lhs => rw [← List.take_append_drop 3 remaining]
    congr 1
    rw [← hsi3]
    exact hchunk
  rcases computeSplitIndex_cases remaining maxLength with
    hc | ⟨j, hje, hjle, hocc⟩ | ⟨j, hje, hjle, hocc⟩ | ⟨j, hje, hjle, hocc⟩
  · omega
  · omega
  · have hj : j = 2 := by omega
    subst hj
    rw [hrem] at hocc
    simp [threeTicks, List.isPrefixOf] at hocc
  · have hj : j = 2 := by omega
    subst hj
    rw [hrem] at hocc
    simp [threeTicks, List.isPrefixOf] at hocc

/-- A slice whose extracted language tag is `js` forces `maxLength ≥ 5`:
the slice contains the five characters ```` ```js ````, and below
`maxLength = 5` every split candidate is too short or would need a newline
or space under one of them. -/
theorem maxLength_ge_five_of_js (remaining : Text) (maxLength : Nat)
    (hgt : maxLength < remaining.length)
    (hlang : extractLang (remaining.take (computeSplitIndex remaining maxLength)) = jsTag) :
    5 ≤ maxLength := by
  have hsile := computeSplitIndex_le remaining maxLength
  have hchunklen : (remaining.take (computeSplitIndex remaining maxLength)).length =
      computeSplitIndex remaining maxLength := by
    rw [List.length_take]
    omega
  unfold extractLang at hlang
  split at hlang
  case h_2 => exact absurd hlang (by simp [jsTag])
  case h_1 lastOpen hlo =>
    have hpre3 : threeTicks <+:
        (remaining.take (computeSplitIndex remaining maxLength)).drop lastOpen :=
      List.isPrefixOf_iff_prefix.1 (lastIndexOfFrom_occurs hlo)
    have hjs : jsTag <+:
        (remaining.take (computeSplitIndex remaining maxLength)).drop (lastOpen + 3) := by
      rw [← hlang]
      exact List.takeWhile_prefix _
    have hlen2 : lastOpen + 5 ≤ (remaining.take (computeSplitIndex remaining maxLength)).length := by
      have h1 := hpre3.length_le
      have h2 := hjs.length_le
      rw [List.length_drop] at h1 h2
      simp [threeTicks] at h1
      simp [jsTag] at h2
      omega
    by_contra hcon
    have h5 : computeSplitIndex remaining maxLength = 5 := by omega
    have h0 : lastOpen = 0 := by omega
    subst h0
    rw [List.drop_zero] at hpre3
    rw [Nat.zero_add] at hjs
    obtain ⟨t, ht⟩ := hpre3
    have ht3 : (remaining.take (computeSplitIndex remaining maxLength)).drop 3 = t := by
      rw [← ht]
      rfl
    obtain ⟨u, hu⟩ := hjs
    rw [ht3] at hu
    have hlt : t.length = 2 := by
      have hh := congrArg List.length ht
      rw [List.length_append, hchunklen, h5] at hh
      simp [threeTicks] at hh
      omega
    have hlu : u = [] := by
      have hh := congrArg List.length hu
      rw [List.length_append] at hh
      simp [jsTag] at hh
      exact List.length_eq_zero.1 (by omega)
    subst hlu
    rw [List.append_nil] at hu
    have hchunkjs : remaining.take (computeSplitIndex remaining maxLength) =
        threeTicks ++ jsTag := by
      rw [← ht, ← hu]
    have hrem : remaining = (threeTicks ++ jsTag) ++ remaining.drop 5 := by
      conv_lhs => rw [← List.take_append_drop 5 remaining]
      congr 1
      rw [← h5]
      exact hchunkjs
    rcases computeSplitIndex_cases remaining maxLength with
      hc | ⟨j, hje, hjle, hocc⟩ | ⟨j, hje, hjle, hocc⟩ | ⟨j, hje, hjle, hocc⟩
    · omega
    · omega
    · have hj : j = 4 := by omega
      subst hj
      rw [hrem] at hocc
      simp [threeTicks, jsTag, List.isPrefixOf] at hocc
    · have hj : j = 4 := by omega
      subst hj
      rw [hrem] at hocc
      simp [threeTicks, jsTag, List.isPrefixOf] at hocc

/-- The first three characters of any reopening marker are backticks, so no
newline, space, or block boundary occurs at a start index below 3 of
`reopenMarker lang ++ r`, whatever the tag. -/
theorem marker_no_early_break (lang r : Text) :
    ∀ i < 3,
      ['\n'].isPrefixOf ((reopenMarker lang ++ r).drop i) = false ∧
      [' '].isPrefixOf ((reopenMarker lang ++ r).drop i) = false ∧
      closeMarker.isPrefixOf ((reopenMarker lang ++ r).drop i) = false := by
  intro i hi
  have hshape : reopenMarker lang ++ r =
      '\x60' :: '\x60' :: '\x60' :: (lang ++ '\n' :: r) := by
    simp [reopenMarker, threeTicks]
  rw [hshape]
  interval_cases i <;> refine ⟨?_, ?_, ?_⟩ <;>
    simp [closeMarker, threeTicks, List.isPrefixOf]

/-- With `maxLength ≥ 3`, one loop iteration on a remaining text that
starts with any reopening marker splits at index 3 or later. -/
theorem computeSplitIndex_marker_ge3 (lang r : Text) (maxLength : Nat)
    (h3 : 3 ≤ maxLength) :
    3 ≤ computeSplitIndex (reopenMarker lang ++ r) maxLength := by
  have hnl : ∀ i : Nat,
      ['\n'].isPrefixOf ((reopenMarker lang ++ r).drop i) = true → 3 ≤ i := by
    intro i hpre
    by_contra hlt
    rw [(marker_no_early_break lang r i (by omega)).1] at hpre
    cases hpre
  have hsp : ∀ i : Nat,
      [' '].isPrefixOf ((reopenMarker lang ++ r).drop i) = true → 3 ≤ i := by
    intro i hpre
    by_contra hlt
    rw [(marker_no_early_break lang r i (by omega)).2.1] at hpre
    cases hpre
  have hcm : ∀ i : Nat,
      closeMarker.isPrefixOf ((reopenMarker lang ++ r).drop i) = true → 3 ≤ i := by
    intro i hpre
    by_contra hlt
    rw [(marker_no_early_break lang r i (by omega)).2.2] at hpre
    cases hpre
  unfold computeSplitIndex
  split
  case h_1 cbe heq =>
    have hcbe : 3 ≤ cbe := hcm cbe (lastIndexOfFrom_occurs (overThreshold_eq_some heq).1)
    split
    case h_1 ab hab =>
      have : 3 ≤ ab := hnl ab (indexOfFrom_occurs hab)
      split <;> omega
    case h_2 => omega
  case h_2 =>
    split
    case h_1 ln hln =>
      have : 3 ≤ ln := hnl ln (lastIndexOfFrom_occurs (overThreshold_eq_some hln).1)
      omega
    case h_2 =>
      split
      case h_1 ls hls =>
        have : 3 ≤ ls := hsp ls (lastIndexOfFrom_occurs (overThreshold_eq_some hls).1)
        omega
      case h_2 => omega

/-- When the loop state's inserted head starts with a reopening marker, the
next emitted chunk exists, begins with the fence ```` ``` ````, and the
inserted text at its head is the reopening marker or an initial part of it
(the marker itself when the whole remainder fits in one chunk). -/
theorem instrLoop_head_fence (maxLength : Nat) (h3 : 3 ≤ maxLength) (fuel : Nat)
    (lang insRest orig : Text) (parts : List ChunkPart)
    (h : instrLoop maxLength fuel (reopenMarker lang ++ insRest) orig = some parts) :
    ∃ q qs, parts = q :: qs ∧ q.assemble.take 3 = threeTicks ∧
      (q.pre <+: reopenMarker lang ∨ reopenMarker lang <+: q.pre) := by
  cases fuel with
  | zero => exact absurd h (by simp [instrLoop])
  | succ fuel =>
    simp only [instrLoop] at h
    have hX : reopenMarker lang ++ insRest ++ orig = reopenMarker lang ++ (insRest ++ orig) :=
      List.append_assoc _ _ _
    have hlen4 : 4 ≤ (reopenMarker lang ++ insRest ++ orig).length := by
      rw [hX, List.length_append]
      simp [reopenMarker, threeTicks]
      omega
    rw [if_neg (by omega : ¬((reopenMarker lang ++ insRest ++ orig).length = 0))] at h
    by_cases h1 : (reopenMarker lang ++ insRest ++ orig).length ≤ maxLength
    · rw [if_pos h1] at h
      cases h
      refine ⟨_, _, rfl, ?_, Or.inr (List.prefix_append _ _)⟩
      show (reopenMarker lang ++ insRest ++ (orig ++ [])).take 3 = threeTicks
      rw [List.append_nil, hX]
      rfl
    · rw [if_neg h1] at h
      have hsi3 : 3 ≤ computeSplitIndex (reopenMarker lang ++ insRest ++ orig) maxLength := by
        rw [hX]
        exact computeSplitIndex_marker_ge3 lang (insRest ++ orig) maxLength h3
      have hA : (reopenMarker lang ++ insRest).take
            (computeSplitIndex (reopenMarker lang ++ insRest ++ orig) maxLength) ++
          orig.take (computeSplitIndex (reopenMarker lang ++ insRest ++ orig) maxLength -
            (reopenMarker lang ++ insRest).length) =
          (reopenMarker lang ++ insRest ++ orig).take
            (computeSplitIndex (reopenMarker lang ++ insRest ++ orig) maxLength) :=
        List.take_append_eq_append_take.symm
      have hAlen : 3 ≤ ((reopenMarker lang ++ insRest ++ orig).take
          (computeSplitIndex (reopenMarker lang ++ insRest ++ orig) maxLength)).length := by
        rw [List.length_take]
        omega
      have htake3 : ((reopenMarker lang ++ insRest ++ orig).take
          (computeSplitIndex (reopenMarker lang ++ insRest ++ orig) maxLength)).take 3 =
          threeTicks := by
        rw [List.take_take, Nat.min_eq_left hsi3, hX]
        rfl
      have hpredisj : (reopenMarker lang ++ insRest).take
            (computeSplitIndex (reopenMarker lang ++ insRest ++ orig) maxLength) <+:
            reopenMarker lang ∨
          reopenMarker lang <+: (reopenMarker lang ++ insRest).take
            (computeSplitIndex (reopenMarker lang ++ insRest ++ orig) maxLength) := by
        rw [List.take_append_eq_append_take]
        by_cases hsil : computeSplitIndex (reopenMarker lang ++ insRest ++ orig) maxLength ≤
            (reopenMarker lang).length
        · left
          rw [show computeSplitIndex (reopenMarker lang ++ insRest ++ orig) maxLength -
                (reopenMarker lang).length = 0 from by omega,
              List.take_zero, List.append_nil]
          exact List.take_prefix _ _
        · right
          rw [List.take_of_length_le (by omega)]
          exact List.prefix_append _ _
      split at h <;>
        obtain ⟨ps, hps, rfl⟩ := Option.map_eq_some'.1 h <;>
        refine ⟨_, ps, rfl, ?_, hpredisj⟩ <;>
        simp only [ChunkPart.assemble] <;>
        rw [List.take_append_eq_append_take, hA,
            show 3 - ((reopenMarker lang ++ insRest ++ orig).take
                (computeSplitIndex (reopenMarker lang ++ insRest ++ orig) maxLength)).length = 0
              from by omega,
            List.take_zero, List.append_nil] <;>
        exact htake3

/-- The spine of C9, by induction over the loop: whenever an emitted chunk
carries a nonempty `post` (the loop split inside an open block and appended
the closing marker), that `post` is exactly the closing marker; the next
chunk exists and begins with the fence ```` ``` ````; the inserted text at
the next chunk's head is the reopening marker carrying the tag extracted
from the emitted chunk, or an initial part of that marker; and when the
extracted tag is `js` the next chunk begins with ```` ```js ````.  The
bounds `maxLength ≥ 3` (resp. `≥ 5`) needed for the successor analysis are
forced by the emitted chunk itself, which contains a whole fence
(resp. an intact ```` ```js ```` fence). -/
theorem instrLoop_post_spec (maxLength : Nat) :
    ∀ (fuel : Nat) (ins orig : Text) (parts : List ChunkPart),
      instrLoop maxLength fuel ins orig = some parts →
      ∀ (i : Nat) (p : ChunkPart), parts.get? i = some p → p.post ≠ [] →
        p.post = closeMarker ∧
        (∃ q, parts.get? (i + 1) = some q ∧
          q.assemble.take 3 = threeTicks ∧
          (q.pre <+: reopenMarker (extractLang (p.pre ++ p.orig)) ∨
            reopenMarker (extractLang (p.pre ++ p.orig)) <+: q.pre) ∧
          (extractLang (p.pre ++ p.orig) = jsTag →
            q.assemble.take 5 = threeTicks ++ jsTag)) := by
  intro fuel
  induction fuel with
  | zero => intro ins orig parts h; exact absurd h (by simp [instrLoop])
  | succ fuel ih =>
    intro ins orig parts h i p hp hpost
    simp only [instrLoop] at h
    split at h
    · cases h
      simp at hp
    · split at h
      · cases h
        cases i with
        | zero =>
          simp only [List.get?] at hp
          cases hp
          exact absurd rfl hpost
        | succ j =>
          simp only [List.get?] at hp
          simp at hp
      · rename_i hne hle
        split at h
        · rename_i hodd
          obtain ⟨ps, hps, rfl⟩ := Option.map_eq_some'.1 h
          cases i with
          | zero =>
            simp only [List.get?] at hp
            cases hp
            refine ⟨rfl, ?_⟩
            have hgt : maxLength < (ins ++ orig).length := by omega
            have h3 : 3 ≤ maxLength := maxLength_ge_three_of_odd (ins ++ orig) maxLength hgt hodd
            have hpp : ins.take (computeSplitIndex (ins ++ orig) maxLength) ++
                orig.take (computeSplitIndex (ins ++ orig) maxLength - ins.length) =
                (ins ++ orig).take (computeSplitIndex (ins ++ orig) maxLength) :=
              List.take_append_eq_append_take.symm
            obtain ⟨q, qs, hqs, hq3, hqdisj⟩ :=
              instrLoop_head_fence maxLength h3 fuel
                (extractLang ((ins ++ orig).take (computeSplitIndex (ins ++ orig) maxLength)))
                (ins.drop (computeSplitIndex (ins ++ orig) maxLength))
                (orig.drop (computeSplitIndex (ins ++ orig) maxLength - ins.length))
                ps hps
            subst hqs
            refine ⟨q, rfl, hq3, ?_, ?_⟩
            · exact hpp.symm ▸ hqdisj
            · intro hlang
              have hlang' : extractLang ((ins ++ orig).take
                  (computeSplitIndex (ins ++ orig) maxLength)) = jsTag := by
                rw [← hpp]
                exact hlang
              have h5 : 5 ≤ maxLength := maxLength_ge_five_of_js (ins ++ orig) maxLength hgt hlang'
              rw [hlang'] at hps
              obtain ⟨q2, qs2, hqs2, hq5⟩ :=
                instrLoop_head_js maxLength h5 fuel
                  (reopenMarker jsTag ++
                    ins.drop (computeSplitIndex (ins ++ orig) maxLength))
                  (orig.drop (computeSplitIndex (ins ++ orig) maxLength - ins.length))
                  (ins.drop (computeSplitIndex (ins ++ orig) maxLength) ++
                    orig.drop (computeSplitIndex (ins ++ orig) maxLength - ins.length))
                  (q :: qs) (List.append_assoc _ _ _) hps
              injection hqs2 with hq2 hqs'
              rw [hq2]
              exact hq5
          | succ j =>
            have hp' : ps.get? j = some p := hp
            exact ih _ _ _ hps j p hp' hpost
        · obtain ⟨ps, hps, rfl⟩ := Option.map_eq_some'.1 h
          cases i with
          | zero =>
            simp only [List.get?] at hp
            cases hp
            exact absurd rfl hpost
          | succ j =>
            have hp' : ps.get? j = some p := hp
            exact ih _ _ _ hps j p hp' hpost

/-- Claim **C9** (counterexample).  The pipeline does *not* reopen a block
carrying the *same* language tag: the reopened tag is only the leading
`\w+` run after the last fence of the emitted chunk.  Concretely, at
`maxLength = 10` the input opens a block tagged `c++`; the split lands
inside the block and the first returned chunk ends with the inserted
closing marker, but the next chunk reopens the block as ```` ```c ```` —
its fence line does not read `c++` (it is not even an extension of
`"```c+"`). -/
theorem chunkMessage_reopen_cex :
    chunkMessage 20 ("```c++\nab\n```\nmore stuff after".toList) 10 =
      some ["```c++\nab\n```".toList, "```c\n\n```\n".toList,
            "more stuff ".toList, "after".toList] ∧
    chunkParts 20 ("```c++\nab\n```\nmore stuff after".toList) 10 =
      some [⟨[], "```c++\nab".toList, closeMarker⟩,
            ⟨"```c\n".toList, "\n```\n".toList, []⟩,
            ⟨[], "more stuff ".toList, []⟩,
            ⟨[], "after".toList, []⟩] ∧
    closeMarker <:+ "```c++\nab\n```".toList ∧
    ("```c\n".toList).isPrefixOf ("```c\n\n```\n".toList) = true ∧
    ("```c+".toList).isPrefixOf ("```c\n\n```\n".toList) = false := by
  refine ⟨rfl, rfl, ?_, ?_, ?_⟩ <;> decide

/-- Claim **C9** (amended).  Whenever the pipeline splits inside an open
preformatted block (the emitted chunk carries a nonempty inserted `post`),
the inserted `post` is exactly the closing marker — the emitted chunk ends
with `"\n```"` — and the pipeline reopens a preformatted block for the next
chunk, tagged with the tag it extracts from the emitted chunk: the longest
run of word characters after the chunk's last fence, which can differ from
the block's original tag when that tag contains non-word characters.  The
next chunk always exists and begins with the fence ```` ``` ````; the
inserted text at its head is the reopening marker carrying the extracted
tag, or an initial part of that marker; and when the extracted tag is `js`
the next chunk begins with ```` ```js ````.  Assembling the tracked chunks
is exactly the source loop's output. -/
theorem chunkMessage_reopen_amended (fuel : Nat) (text : Text) (maxLength : Nat)
    (parts : List ChunkPart) (i : Nat) (p : ChunkPart)
    (h : chunkParts fuel text maxLength = some parts)
    (hp : parts.get? i = some p)
    (hpost : p.post ≠ []) :
    p.post = closeMarker ∧
    closeMarker <:+ p.assemble ∧
    (∃ q, parts.get? (i + 1) = some q ∧
      q.assemble.take 3 = threeTicks ∧
      (q.pre <+: reopenMarker (extractLang (p.pre ++ p.orig)) ∨
        reopenMarker (extractLang (p.pre ++ p.orig)) <+: q.pre) ∧
      (extractLang (p.pre ++ p.orig) = jsTag →
        q.assemble.take 5 = threeTicks ++ jsTag)) ∧
    chunkLoop maxLength fuel text = some (parts.map ChunkPart.assemble) := by
  unfold chunkParts at h
  by_cases hle : text.length ≤ maxLength
  · rw [if_pos hle] at h
    cases h
    cases i with
    | zero =>
      simp only [List.get?] at hp
      cases hp
      exact absurd rfl hpost
    | succ j =>
      simp only [List.get?] at hp
      simp at hp
  · rw [if_neg hle] at h
    have main := instrLoop_post_spec maxLength fuel [] text parts h i p hp hpost
    refine ⟨main.1, ?_, main.2, ?_⟩
    · show closeMarker <:+ p.pre ++ p.orig ++ p.post
      rw [main.1]
      exact List.suffix_append _ _
    · have he := instrLoop_erase maxLength fuel [] text
      rw [List.nil_append] at he
      rw [he, h]
      rfl

/-- Witness for the amended C9 at the spec's scenario: an unterminated
```` ```js ```` block spanning a split point; the first chunk ends with the
closing marker, the second begins with ```` ```js ````, and its inserted
head is the full ```` ```js ```` reopening marker. -/
theorem chunkMessage_reopen_amended_witness :
    (chunkParts 20 ("```js\nx\n```\nmore over ten".toList) 10 = some jsParts ∧
     jsParts.get? 0 = some ⟨[], "```js\nx".toList, closeMarker⟩ ∧
     (⟨[], "```js\nx".toList, closeMarker⟩ : ChunkPart).post ≠ []) ∧
    ((⟨[], "```js\nx".toList, closeMarker⟩ : ChunkPart).post = closeMarker ∧
     closeMarker <:+ (⟨[], "```js\nx".toList, closeMarker⟩ : ChunkPart).assemble ∧
     (∃ q, jsParts.get? (0 + 1) = some q ∧
       q.assemble.take 3 = threeTicks ∧
       (q.pre <+: reopenMarker (extractLang
           ((⟨[], "```js\nx".toList, closeMarker⟩ : ChunkPart).pre ++
            (⟨[], "```js\nx".toList, closeMarker⟩ : ChunkPart).orig)) ∨
        reopenMarker (extractLang
           ((⟨[], "```js\nx".toList, closeMarker⟩ : ChunkPart).pre ++
            (⟨[], "```js\nx".toList, closeMarker⟩ : ChunkPart).orig)) <+: q.pre) ∧
       (extractLang
           ((⟨[], "```js\nx".toList, closeMarker⟩ : ChunkPart).pre ++
            (⟨[], "```js\nx".toList, closeMarker⟩ : ChunkPart).orig) = jsTag →
         q.assemble.take 5 = threeTicks ++ jsTag)) ∧
     chunkLoop 10 20 ("```js\nx\n```\nmore over ten".toList) =
       some (jsParts.map ChunkPart.assemble)) :=
  ⟨⟨rfl, rfl, by decide⟩,
   chunkMessage_reopen_amended 20 ("```js\nx\n```\nmore over ten".toList) 10 jsParts 0
     ⟨[], "```js\nx".toList, closeMarker⟩ rfl rfl (by decide)⟩

end Claud9
